import Mathlib

/-!
Verification development for libconfigini (src/src/configini.c).

The C sources are shallowly embedded here:
  * C strings become `List Char` (NUL-free by construction, so the C tests
    `*p != '\0'` become end-of-list tests);
  * the intrusive TAILQ lists of sections and key-value nodes become Lean
    lists; the `numofsect` / `numofkv` counters, which the C code keeps in
    lock step with the list contents, are represented by list lengths;
  * the `FILE *` stream consumed by `ConfigRead` becomes the list of strings
    that successive `fgets` calls would return (each physical line including
    its terminating newline character, when one is present);
  * a C function that can dereference a null pointer is given an explicit
    crash outcome instead of undefined behaviour.
-/

/-- Return codes, from the ConfigRet enum in src/src/config.h. -/
inductive ConfigRet where
  | CONFIG_RET_OK
  | CONFIG_ERR_FILE
  | CONFIG_ERR_NO_SECTION
  | CONFIG_ERR_NO_KEY
  | CONFIG_ERR_MEMALLOC
  | CONFIG_ERR_INVALID_PARAM
  | CONFIG_ERR_INVALID_VALUE
  | CONFIG_ERR_PARSING
  deriving DecidableEq

/-- A key-value node (struct ConfigKeyValue in configini.c). -/
structure ConfigKeyValue where
  key : List Char
  value : List Char
  deriving DecidableEq

/-- A section node (struct ConfigSection in configini.c). `name = none`
models the NULL name of the default (flat) section. `numofkv` is
`kvs.length`. -/
structure ConfigSection where
  name : Option (List Char)
  kvs : List ConfigKeyValue
  deriving DecidableEq

/-- The configuration handle (struct Config in configini.c). `numofsect` is
`sects.length`; the `initnum` magic field is not represented (all values of
this type model initialized handles). -/
structure Config where
  comment_chars : List Char
  keyval_sep : Char
  true_str : List Char
  false_str : List Char
  sects : List ConfigSection
  deriving DecidableEq

/-- C `isspace` on the default locale: space, tab, newline, vertical tab,
form feed, carriage return. -/
def isSpaceC (c : Char) : Bool :=
  c = ' ' || c = '\t' || c = '\n' || c = '\x0b' || c = '\x0c' || c = '\r'

/-- The C idiom `while (*q && (q > p) && isspace(*(q-1))) --q;` entered with
`*q` known non-NUL: remove trailing whitespace from a span. -/
def trimTrailing (l : List Char) : List Char :=
  (l.reverse.dropWhile isSpaceC).reverse

/-- ConfigNew() from configini.c: a fresh handle with one default section and
the default settings (comment charset "#", separator '=', bool strings
"1"/"0").  Modelled from the spec: the macro CONFIG_SECTNAME_DEFAULT passed
to ConfigAddSection is not defined in the files under src/; per the spec the
default section is the distinguished unnamed section, so the macro is
modelled as the NULL section name (`none`), matching CONFIG_SECTION_FLAT in
src/src/configini.h. -/
def ConfigNew : Config :=
  { comment_chars := ['#']
    keyval_sep := '='
    true_str := ['1']
    false_str := ['0']
    sects := [{ name := none, kvs := [] }] }

/-- ConfigSetKeyValSepChar() from configini.c (the NULL-handle check is not
representable; every `Config` here models a non-NULL handle). -/
def ConfigSetKeyValSepChar (cfg : Config) (ch : Char) : ConfigRet × Config :=
  (.CONFIG_RET_OK, { cfg with keyval_sep := ch })

/-- ConfigSetBoolString() from configini.c. -/
def ConfigSetBoolString (cfg : Config) (t f : List Char) : ConfigRet × Config :=
  if t.isEmpty || f.isEmpty then (.CONFIG_ERR_INVALID_PARAM, cfg)
  else (.CONFIG_RET_OK, { cfg with true_str := t, false_str := f })

/-- ConfigSetCommentCharset() from configini.c. -/
def ConfigSetCommentCharset (cfg : Config) (cs : List Char) : ConfigRet × Config :=
  (.CONFIG_RET_OK, { cfg with comment_chars := cs })

/-- ConfigGetSection() from configini.c: first section whose name matches
(NULL matches the unnamed section). -/
def ConfigGetSection (cfg : Config) (sec : Option (List Char)) : Option ConfigSection :=
  cfg.sects.find? (fun s => s.name == sec)

/-- ConfigHasSection() from configini.c. -/
def ConfigHasSection (cfg : Config) (sec : Option (List Char)) : Bool :=
  (ConfigGetSection cfg sec).isSome

/-- ConfigGetKeyValue() from configini.c: first entry of the section with the
given key. -/
def ConfigGetKeyValue (s : ConfigSection) (key : List Char) : Option ConfigKeyValue :=
  s.kvs.find? (fun kv => kv.key == key)

/-- ConfigGetSectionCount() from configini.c:
`TAILQ_FIRST(&cfg->sect_list)->numofkv > 0 ? numofsect : numofsect - 1`.
When the section list is empty TAILQ_FIRST is NULL and the C code
dereferences it; that outcome is `none`. -/
def ConfigGetSectionCount (cfg : Config) : Option Int :=
  match cfg.sects with
  | [] => none
  | s :: _ =>
    some (if 0 < s.kvs.length then (cfg.sects.length : Int)
          else (cfg.sects.length : Int) - 1)

/-- ConfigGetKeyCount() from configini.c. -/
def ConfigGetKeyCount (cfg : Config) (sec : Option (List Char)) : Int :=
  match ConfigGetSection cfg sec with
  | none => -1
  | some s => s.kvs.length

/-- The value transformation inside ConfigAddString() (configini.c lines
659-668): skip leading whitespace, stop at CR, LF or a comment character,
and -- only when the scan stopped before the end of the string, because of
the `*q &&` guard on the trim loop -- trim trailing whitespace. -/
def storeValue (com : List Char) (v : List Char) : List Char :=
  let p := v.dropWhile isSpaceC
  let span := p.takeWhile (fun c => !(c = '\r' || c = '\n' || com.contains c))
  if (p.drop span.length).isEmpty then span else trimTrailing span

/-- ConfigAddSection() from configini.c: return the existing section, or
append a fresh empty one with the given name. The returned section is what
the C code leaves in `*sect`. -/
def ConfigAddSection (cfg : Config) (sec : Option (List Char)) : Config × ConfigSection :=
  match ConfigGetSection cfg sec with
  | some s => (cfg, s)
  | none =>
    let s : ConfigSection := { name := sec, kvs := [] }
    ({ cfg with sects := cfg.sects ++ [s] }, s)

/-- Replace the value of the first entry with this key, or append a new
entry at the tail (the two switch branches of ConfigAddString). -/
def upsertKV : List ConfigKeyValue → List Char → List Char → List ConfigKeyValue
  | [], k, v => [{ key := k, value := v }]
  | kv :: rest, k, v =>
    if kv.key = k then { key := kv.key, value := v } :: rest
    else kv :: upsertKV rest k v

/-- Apply `f` to the entry list of the first section with the given name. -/
def updateSect : List ConfigSection → Option (List Char) →
    (List ConfigKeyValue → List ConfigKeyValue) → List ConfigSection
  | [], _, _ => []
  | s :: rest, n, f =>
    if s.name = n then { s with kvs := f s.kvs } :: rest
    else s :: updateSect rest n f

/-- ConfigAddString() from configini.c: ensure the section exists, then
replace-or-append the key with the transformed value. -/
def ConfigAddString (cfg : Config) (sec : Option (List Char)) (key value : List Char) : Config :=
  let v := storeValue cfg.comment_chars value
  let cfg1 := (ConfigAddSection cfg sec).1
  { cfg1 with sects := updateSect cfg1.sects sec (fun kvs => upsertKV kvs key v) }

/-- Remove the first entry with this key (_ConfigRemoveKey acting on the
node located by ConfigGetKeyValue). -/
def removeKV : List ConfigKeyValue → List Char → List ConfigKeyValue
  | [], _ => []
  | kv :: rest, k => if kv.key = k then rest else kv :: removeKV rest k

/-- ConfigRemoveKey() from configini.c. -/
def ConfigRemoveKey (cfg : Config) (sec : Option (List Char)) (key : List Char) :
    Except ConfigRet Config :=
  match ConfigGetSection cfg sec with
  | none => .error .CONFIG_ERR_NO_SECTION
  | some s =>
    match ConfigGetKeyValue s key with
    | none => .error .CONFIG_ERR_NO_KEY
    | some _ => .ok { cfg with sects := updateSect cfg.sects sec (fun kvs => removeKV kvs key) }

/-- Remove the first section with this name (_ConfigRemoveSection acting on
the node located by ConfigGetSection). -/
def removeSect : List ConfigSection → Option (List Char) → List ConfigSection
  | [], _ => []
  | s :: rest, n => if s.name = n then rest else s :: removeSect rest n

/-- ConfigRemoveSection() from configini.c. -/
def ConfigRemoveSection (cfg : Config) (sec : Option (List Char)) : Except ConfigRet Config :=
  match ConfigGetSection cfg sec with
  | none => .error .CONFIG_ERR_NO_SECTION
  | some _ => .ok { cfg with sects := removeSect cfg.sects sec }

/-- ConfigReadString() from configini.c. The caller's buffer is modelled by
the returned `Option (List Char)`: `some out` means the buffer holds the
NUL-terminated string `out`; `none` means the INVALID_PARAM path left the
buffer untouched. The found path is `snprintf(value, size, "%s", kv->value)`
and the default path is `StrSafeCpy(value, dfl_value, size)`; both write at
most `size - 1` characters plus the terminator. -/
def ConfigReadString (cfg : Config) (sec : Option (List Char)) (key : List Char)
    (size : Nat) (dfl : List Char) : ConfigRet × Option (List Char) :=
  if size < 1 then (.CONFIG_ERR_INVALID_PARAM, none)
  else
    match ConfigGetSection cfg sec with
    | none => (.CONFIG_ERR_NO_SECTION, some (dfl.take (size - 1)))
    | some s =>
      match ConfigGetKeyValue s key with
      | none => (.CONFIG_ERR_NO_KEY, some (dfl.take (size - 1)))
      | some kv => (.CONFIG_RET_OK, some (kv.value.take (size - 1)))

/-- ASCII digit test. -/
def isDigitC (c : Char) : Bool := '0' ≤ c && c ≤ '9'

/-- Numeric value of a digit string. -/
def digitsToNat (ds : List Char) : Nat :=
  ds.foldl (fun a c => a * 10 + (c.toNat - 48)) 0

/-- strtol(s, &p, 10) on a 64-bit long: skip whitespace, optional sign,
decimal digits, clamping to the long range; returns the parsed value and the
remainder of the string starting at `*endptr`. When no digits are found the
value is 0 and `*endptr` is the original string. The ERANGE errno side
channel (which configini.c reads without ever clearing errno) is not
modelled. -/
def strtol10 (s : List Char) : Int × List Char :=
  let s1 := s.dropWhile isSpaceC
  let signed : Bool × List Char :=
    match s1 with
    | '-' :: r => (true, r)
    | '+' :: r => (false, r)
    | _ => (false, s1)
  let ds := signed.2.takeWhile isDigitC
  if ds.isEmpty then (0, s)
  else
    let m : Int := if signed.1 then -(digitsToNat ds : Int) else (digitsToNat ds : Int)
    let clamped := if m > 2 ^ 63 - 1 then 2 ^ 63 - 1 else if m < -(2 ^ 63) then -(2 ^ 63) else m
    (clamped, signed.2.drop ds.length)

/-- The `(int)` cast applied to the strtol result: two's-complement wrap to
32 bits. -/
def toInt32 (x : Int) : Int := (x + 2 ^ 31) % 2 ^ 32 - 2 ^ 31

/-- ConfigReadInt() from configini.c. Note the order of operations in the C
code: `*value = (int) strtol(kv->value, &p, 10);` runs before the
`if (*p || errno == ERANGE)` check, so on a partial parse the output holds
the strtol result, not the caller's default. -/
def ConfigReadInt (cfg : Config) (sec : Option (List Char)) (key : List Char)
    (dfl : Int) : ConfigRet × Int :=
  match ConfigGetSection cfg sec with
  | none => (.CONFIG_ERR_NO_SECTION, dfl)
  | some s =>
    match ConfigGetKeyValue s key with
    | none => (.CONFIG_ERR_NO_KEY, dfl)
    | some kv =>
      let r := strtol10 kv.value
      let out := toInt32 r.1
      if r.2.isEmpty then (.CONFIG_RET_OK, out) else (.CONFIG_ERR_INVALID_VALUE, out)

/-- ASCII tolower, as used by strcasecmp. -/
def lowerC (c : Char) : Char :=
  if 'A' ≤ c && c ≤ 'Z' then Char.ofNat (c.toNat + 32) else c

/-- `strcasecmp(a, b) == 0`. -/
def eqNoCase (a b : List Char) : Bool :=
  a.map lowerC == b.map lowerC

/-- ConfigReadBool() from configini.c: the fixed chain of strcasecmp tests
against "true"/"yes"/"1" and "false"/"no"/"0". The handle's configured
true_str/false_str are not consulted by the C code. -/
def ConfigReadBool (cfg : Config) (sec : Option (List Char)) (key : List Char)
    (dfl : Bool) : ConfigRet × Bool :=
  match ConfigGetSection cfg sec with
  | none => (.CONFIG_ERR_NO_SECTION, dfl)
  | some s =>
    match ConfigGetKeyValue s key with
    | none => (.CONFIG_ERR_NO_KEY, dfl)
    | some kv =>
      if eqNoCase kv.value "true".toList || eqNoCase kv.value "yes".toList ||
         eqNoCase kv.value "1".toList then (.CONFIG_RET_OK, true)
      else if eqNoCase kv.value "false".toList || eqNoCase kv.value "no".toList ||
              eqNoCase kv.value "0".toList then (.CONFIG_RET_OK, false)
      else (.CONFIG_ERR_INVALID_VALUE, dfl)

/-- GetSectName() from configini.c, applied to the (whitespace-skipped) line
buffer: expect '[', skip whitespace, scan the name up to ']' (failing if a
line terminator or comment character comes first), trim its trailing
whitespace, reject an empty name, and allow only whitespace and/or a comment
after the closing bracket. -/
def GetSectName (cfg : Config) (p : List Char) : Except ConfigRet (List Char) :=
  match p.dropWhile isSpaceC with
  | '[' :: p2 =>
    let p3 := p2.dropWhile isSpaceC
    let span := p3.takeWhile (fun c => !(c = '\r' || c = '\n' || c = ']' || cfg.comment_chars.contains c))
    match p3.drop span.length with
    | ']' :: r =>
      let name := trimTrailing span
      if name.isEmpty then .error .CONFIG_ERR_PARSING
      else
        match r.dropWhile isSpaceC with
        | [] => .ok name
        | c :: _ =>
          if cfg.comment_chars.contains c then .ok name
          else .error .CONFIG_ERR_PARSING
    | _ => .error .CONFIG_ERR_PARSING
  | _ => .error .CONFIG_ERR_PARSING

/-- GetKeyVal() from configini.c: scan the key up to the configured
separator (failing if a line terminator or comment character comes first),
trim it and reject an empty key, then scan the value after the separator,
skipping leading whitespace, stopping at a terminator or comment character,
trimming trailing whitespace (the trim is skipped when the scan reached the
end of the C string, because of the `*q &&` guard), and reject an empty
value with INVALID_VALUE. The model assumes the separator is not the NUL
byte. -/
def GetKeyVal (cfg : Config) (p : List Char) :
    Except ConfigRet (List Char × List Char) :=
  let p1 := p.dropWhile isSpaceC
  let kspan := p1.takeWhile
    (fun c => !(c = '\r' || c = '\n' || c = cfg.keyval_sep || cfg.comment_chars.contains c))
  match p1.drop kspan.length with
  | c :: v0 =>
    if c = cfg.keyval_sep then
      let key := trimTrailing kspan
      if key.isEmpty then .error .CONFIG_ERR_PARSING
      else
        let v1 := v0.dropWhile isSpaceC
        let vspan := v1.takeWhile (fun c => !(c = '\r' || c = '\n' || cfg.comment_chars.contains c))
        let val := if (v1.drop vspan.length).isEmpty then vspan else trimTrailing vspan
        if val.isEmpty then .error .CONFIG_ERR_INVALID_VALUE
        else .ok (key, val)
    else .error .CONFIG_ERR_PARSING
  | [] => .error .CONFIG_ERR_PARSING

/-- Outcome of handling one line inside the ConfigRead loop. The current
section is carried as `Option (Option (List Char))`: `none` models the
NULL ConfigSection pointer the loop starts with, `some n` a pointer to the
section named `n`. -/
inductive StepResult where
  | next (cfg : Config) (cur : Option (Option (List Char)))
  | fail (r : ConfigRet) (cfg : Config)
  | crash

/-- One iteration of the ConfigRead while loop: skip blank and comment
lines; a '[' line updates the current section via GetSectName and
ConfigAddSection; any other line goes through GetKeyVal and then
`ConfigAddString(_cfg, sect->name, key, val)` -- which dereferences the NULL
current-section pointer (`crash`) when no section header has been seen
yet. -/
def processLine (cfg : Config) (cur : Option (Option (List Char))) (line : List Char) :
    StepResult :=
  match line.dropWhile isSpaceC with
  | [] => .next cfg cur
  | c :: cs =>
    if cfg.comment_chars.contains c then .next cfg cur
    else if c = '[' then
      match GetSectName cfg (c :: cs) with
      | .error e => .fail e cfg
      | .ok name => .next (ConfigAddSection cfg (some name)).1 (some (some name))
    else
      match GetKeyVal cfg (c :: cs) with
      | .error e => .fail e cfg
      | .ok kv =>
        match cur with
        | none => .crash
        | some sname => .next (ConfigAddString cfg sname kv.1 kv.2) (some sname)

/-- Result of running the ConfigRead loop over a list of lines. -/
inductive ReadResult where
  | ok (cfg : Config) (cur : Option (Option (List Char)))
  | err (r : ConfigRet) (cfg : Config)
  | nullDeref
  deriving DecidableEq

/-- The ConfigRead while loop over the remaining input lines. -/
def readLines (cfg : Config) (cur : Option (Option (List Char))) :
    List (List Char) → ReadResult
  | [] => .ok cfg cur
  | line :: rest =>
    match processLine cfg cur line with
    | .next c cu => readLines c cu rest
    | .fail r c => .err r c
    | .crash => .nullDeref

/-- What ConfigRead leaves behind: either a return code together with the
value stored through the caller's `Config **` handle, or a crash from the
null current-section dereference. -/
inductive HandleResult where
  | ret (handle : Option Config) (r : ConfigRet)
  | crash
  deriving DecidableEq

/-- ConfigRead() from configini.c at the handle level: a NULL incoming
handle is populated with a fresh ConfigNew() store; on a parse error the
fresh store is freed and the handle reset to NULL, while a caller-supplied
store is left in its partially populated state. -/
def ConfigRead (handle : Option Config) (lines : List (List Char)) : HandleResult :=
  let cfg0 := handle.getD ConfigNew
  match readLines cfg0 none lines with
  | .ok cfg _ => .ret (some cfg) .CONFIG_RET_OK
  | .err r cfg => if handle.isNone then .ret none r else .ret (some cfg) r
  | .nullDeref => .crash

/-- The lines ConfigPrint() emits for one section: a `[name]` header for a
named section (none for the unnamed one), one `key=value` line per entry
with a hardcoded '=' separator, then one blank line. -/
def printSect (s : ConfigSection) : List (List Char) :=
  (match s.name with
   | some n => [('[' :: n) ++ [']', '\n']]
   | none => [])
  ++ s.kvs.map (fun kv => kv.key ++ '=' :: (kv.value ++ ['\n']))
  ++ [['\n']]

/-- ConfigPrint() from configini.c, as the list of lines written to the
stream. -/
def ConfigPrint (cfg : Config) : List (List Char) :=
  (cfg.sects.map printSect).flatten

/-- Value of the (section, key) cell of a store, through the same lookups
the read family uses. -/
def lookupVal (cfg : Config) (sec : Option (List Char)) (key : List Char) :
    Option (List Char) :=
  (ConfigGetSection cfg sec).bind fun s => (ConfigGetKeyValue s key).map (·.value)

/-! ### Definitions used to state the claims -/

/-- The serializer output as the spec describes it (claim C5), parameterized
by the separator character the claim says is emitted between key and value:
a `[name]` header per named section (none for the default section), one
key/separator/value line per entry, a blank line after each section. -/
def printSpec (sep : Char) (cfg : Config) : List (List Char) :=
  (cfg.sects.map (fun s =>
    (match s.name with
     | some n => [('[' :: n) ++ [']', '\n']]
     | none => [])
    ++ s.kvs.map (fun kv => kv.key ++ sep :: (kv.value ++ ['\n']))
    ++ [['\n']])).flatten

/-- The boolean a stored value denotes under the fixed alias set that
ConfigReadBool actually accepts: case-insensitively true/yes/1 or
false/no/0, and nothing else. -/
def boolOfValue (v : List Char) : Option Bool :=
  let a := v.map lowerC
  if a = "true".toList ∨ a = "yes".toList ∨ a = "1".toList then some true
  else if a = "false".toList ∨ a = "no".toList ∨ a = "0".toList then some false
  else none

/-- A store with the default settings and the given section list (every
store reachable while re-parsing printed output into a fresh handle has this
shape, since parsing never changes the settings). -/
def mkCfg (l : List ConfigSection) : Config :=
  { comment_chars := ['#'], keyval_sep := '=', true_str := ['1'], false_str := ['0'],
    sects := l }

/-- No leading and no trailing whitespace character. -/
def noEdgeSpace (l : List Char) : Bool :=
  !isSpaceC (l.headD ' ') && !isSpaceC (l.reverse.headD ' ')

/-- A section name that survives the print/re-parse cycle: nonempty, not
whitespace-edged, free of CR, LF, ']' and of the fresh store's comment
character '#'. -/
def goodName (n : List Char) : Bool :=
  !n.isEmpty && noEdgeSpace n &&
  n.all (fun c => !(c = '\r' || c = '\n' || c = ']' || c = '#'))

/-- A key that survives the print/re-parse cycle: additionally free of the
'=' separator the printer emits and not starting with '['. -/
def goodKey (k : List Char) : Bool :=
  !k.isEmpty && noEdgeSpace k && !(k.headD ' ' = '[') &&
  k.all (fun c => !(c = '\r' || c = '\n' || c = '=' || c = '#'))

/-- A value that survives the print/re-parse cycle: nonempty, not
whitespace-edged, free of CR, LF, the separator and '#'. -/
def goodVal (v : List Char) : Bool :=
  !v.isEmpty && noEdgeSpace v &&
  v.all (fun c => !(c = '\r' || c = '\n' || c = '=' || c = '#'))

/-- Entry keys pairwise distinct. -/
def distinctKeys : List ConfigKeyValue → Bool
  | [] => true
  | kv :: rest => rest.all (fun e => !(e.key == kv.key)) && distinctKeys rest

/-- A section in round-trippable shape: an unnamed section must be empty
(its entries would hit the parser's null current-section dereference or leak
into the preceding section), a named one needs a good name and good,
duplicate-free entries. -/
def sectOK : ConfigSection → Bool
  | { name := none, kvs := kvs } => kvs.isEmpty
  | { name := some n, kvs := kvs } =>
    goodName n && kvs.all (fun kv => goodKey kv.key && goodVal kv.value) && distinctKeys kvs

/-- Named sections pairwise distinct. -/
def distinctNames : List ConfigSection → Bool
  | [] => true
  | s :: rest =>
    (match s.name with
     | none => true
     | some n => rest.all (fun t => !(t.name == some n))) && distinctNames rest

/-- A store whose printed output re-parses to the same contents. -/
def wellFormed (cfg : Config) : Bool :=
  cfg.sects.all sectOK && distinctNames cfg.sects

/-- The named sections, in order (what re-parsing printed output rebuilds
after the fresh default section). -/
def namedSects : List ConfigSection → List ConfigSection
  | [] => []
  | s :: rest =>
    match s.name with
    | some _ => s :: namedSects rest
    | none => namedSects rest

/-- A store reached by: create, add A/k=v, remove the default section,
re-add a default entry, remove it again. Its default section exists, is
empty, and sits second in the list. -/
def c6mid : Config :=
  { comment_chars := ['#'], keyval_sep := '=', true_str := ['1'], false_str := ['0'],
    sects := [{ name := some "A".toList,
                kvs := [{ key := "k".toList, value := "v".toList }] }] }

/-- c6mid after re-adding and then emptying a default section. -/
def c6final : Config :=
  { c6mid with sects := c6mid.sects ++ [{ name := none, kvs := [] }] }

/-- An input whose third line fails to parse, used against both ConfigRead
handle modes. -/
def c7lines : List (List Char) :=
  ["[A]\n".toList, "x=1\n".toList, "bad\n".toList]

/-- The store state ConfigRead has built when it hits the bad third line of
c7lines. -/
def c7partial : Config :=
  { comment_chars := ['#'], keyval_sep := '=', true_str := ['1'], false_str := ['0'],
    sects := [{ name := none, kvs := [] },
              { name := some "A".toList,
                kvs := [{ key := "x".toList, value := "1".toList }] }] }

/-- A store holding the value "on" while the configured boolean literal
pair is "on"/"off". -/
def c4cfg : Config :=
  ConfigAddString (ConfigSetBoolString ConfigNew "on".toList "off".toList).2
    (some "S".toList) "k".toList "on".toList

/-- A store holding the value "Yes" under default settings. -/
def c4yes : Config :=
  ConfigAddString ConfigNew (some "S".toList) "k".toList "Yes".toList

/-- A well-formed two-section store used to witness the round-trip law. -/
def c1wf : Config :=
  ConfigAddString (ConfigAddString ConfigNew (some "A".toList) "x".toList "1".toList)
    (some "B".toList) "y".toList "2".toList

/-- A store with one entry S/k=v, used to witness the replace-or-append
behavior of ConfigAddString. -/
def c8cfg : Config :=
  ConfigAddString ConfigNew (some "S".toList) "k".toList "v".toList

/-- The section of c8cfg named S. -/
def c8sect : ConfigSection :=
  { name := some "S".toList, kvs := [{ key := "k".toList, value := "v".toList }] }

/-- A store holding a five-character value, used to witness truncation by
ConfigReadString with a three-byte buffer. -/
def c10cfg : Config :=
  ConfigAddString ConfigNew (some "S".toList) "k".toList "hello".toList

/-- Decidable equality for Except results, so concrete runs of the remove
operations can be checked by evaluation. -/
instance exceptDecEq {ε α : Type _} [DecidableEq ε] [DecidableEq α] :
    DecidableEq (Except ε α) := fun a b =>
  match a, b with
  | .ok x, .ok y =>
    if h : x = y then .isTrue (by rw [h]) else .isFalse (by simp [h])
  | .error x, .error y =>
    if h : x = y then .isTrue (by rw [h]) else .isFalse (by simp [h])
  | .ok _, .error _ => .isFalse (fun h => Except.noConfusion h)
  | .error _, .ok _ => .isFalse (fun h => Except.noConfusion h)

/-! ### Helper lemmas about the list operations used by the store -/

theorem find?_split {α : Type _} (p : α → Bool) (l : List α) (a : α)
    (h : l.find? p = some a) :
    ∃ l1 l2, l = l1 ++ a :: l2 ∧ (∀ x ∈ l1, p x = false) ∧ p a = true := by
  induction l with
  | nil => simp at h
  | cons x xs ih =>
    by_cases hx : p x
    · rw [List.find?_cons_of_pos _ hx] at h
      cases h
      exact ⟨[], xs, rfl, by simp, hx⟩
    · rw [List.find?_cons_of_neg _ hx] at h
      obtain ⟨l1, l2, rfl, h1, h2⟩ := ih h
      refine ⟨x :: l1, l2, rfl, ?_, h2⟩
      intro y hy
      rcases List.mem_cons.1 hy with rfl | hy
      · exact Bool.eq_false_iff.2 hx
      · exact h1 y hy

theorem find?_append_of_none {α : Type _} (p : α → Bool) (l1 l2 : List α)
    (h : ∀ x ∈ l1, p x = false) :
    (l1 ++ l2).find? p = l2.find? p := by
  induction l1 with
  | nil => rfl
  | cons x xs ih =>
    have hx : ¬ p x = true := by simp [h x (by simp)]
    rw [List.cons_append, List.find?_cons_of_neg _ hx]
    exact ih fun y hy => h y (by simp [hy])

theorem updateSect_split (p q : List ConfigSection) (s : ConfigSection)
    (sec : Option (List Char)) (f : List ConfigKeyValue → List ConfigKeyValue)
    (hp : ∀ t ∈ p, t.name ≠ sec) (hs : s.name = sec) :
    updateSect (p ++ s :: q) sec f = p ++ { s with kvs := f s.kvs } :: q := by
  induction p with
  | nil => simp [updateSect, hs]
  | cons t ts ih =>
    have ht : t.name ≠ sec := hp t (by simp)
    simp only [List.cons_append, updateSect, if_neg ht, List.append_eq]
    rw [ih fun y hy => hp y (by simp [hy])]

theorem updateSect_length (l : List ConfigSection) (sec : Option (List Char))
    (f : List ConfigKeyValue → List ConfigKeyValue) :
    (updateSect l sec f).length = l.length := by
  induction l with
  | nil => rfl
  | cons s rest ih =>
    by_cases h : s.name = sec <;> simp [updateSect, h, ih]

theorem upsertKV_replace (pre post : List ConfigKeyValue) (kv : ConfigKeyValue)
    (key v : List Char) (hk : kv.key = key) (hpre : ∀ e ∈ pre, e.key ≠ key) :
    upsertKV (pre ++ kv :: post) key v = pre ++ { key := key, value := v } :: post := by
  induction pre with
  | nil => simp [upsertKV, hk]
  | cons e es ih =>
    have he : e.key ≠ key := hpre e (by simp)
    simp only [List.cons_append, upsertKV, if_neg he, List.append_eq]
    rw [ih fun y hy => hpre y (by simp [hy])]

theorem upsertKV_append (kvs : List ConfigKeyValue) (key v : List Char)
    (h : ∀ e ∈ kvs, e.key ≠ key) :
    upsertKV kvs key v = kvs ++ [{ key := key, value := v }] := by
  induction kvs with
  | nil => rfl
  | cons e es ih =>
    have he : e.key ≠ key := h e (by simp)
    simp only [upsertKV, if_neg he, List.cons_append, List.cons.injEq, true_and]
    exact ih fun y hy => h y (by simp [hy])

theorem find?_upsertKV (kvs : List ConfigKeyValue) (key v : List Char) :
    (upsertKV kvs key v).find? (fun kv => kv.key == key) =
      some { key := key, value := v } := by
  induction kvs with
  | nil => simp [upsertKV, List.find?]
  | cons e es ih =>
    by_cases he : e.key = key
    · simp [upsertKV, he, List.find?]
    · simp only [upsertKV, if_neg he]
      rw [List.find?_cons_of_neg _ (by simp [he])]
      exact ih

/-! ### Claim C2 -/

/-- Claim C2: the claim says key-value lines before any `[section]` header
land in the unnamed default section and the parser's current-section state
starts at the default section. In the code the current-section pointer
starts as NULL and the first key-value line dereferences it
(`ConfigAddString(_cfg, sect->name, ...)`), so parsing the spec's own
example input crashes instead of populating the default section. -/
theorem ConfigRead_flat_before_header_crashes :
    ConfigRead none ["x = 5\n".toList, "[A]\n".toList, "y=6\n".toList] = .crash := by
  decide

/-! ### Claim C3 -/

/-- Claim C3: on the stored value "12abc" ConfigReadInt does return
InvalidValue, but the caller's output variable holds 12 (the strtol result,
written before the trailing-garbage check) rather than the supplied default
7, contradicting the claim and the function's own documentation of
`dfl_value`. -/
theorem ConfigReadInt_partial_parse_keeps_strtol_result :
    ConfigReadInt (ConfigAddString ConfigNew (some "S".toList) "k".toList "12abc".toList)
        (some "S".toList) "k".toList 7
      = (.CONFIG_ERR_INVALID_VALUE, 12) ∧ (12 : Int) ≠ 7 := by
  decide

/-! ### Claim C5 -/

/-- Claim C5, counterexample: with the separator configured to ':' the
printer still emits "k=v", not "k:v"; the output does not match the
claim-side description instantiated with the configured separator. -/
theorem ConfigPrint_ignores_configured_sep :
    (ConfigSetKeyValSepChar (ConfigAddString ConfigNew (some "S".toList) "k".toList "v".toList) ':').2.keyval_sep = ':' ∧
    ConfigPrint (ConfigSetKeyValSepChar (ConfigAddString ConfigNew (some "S".toList) "k".toList "v".toList) ':').2
      ≠ printSpec ':'
        (ConfigSetKeyValSepChar (ConfigAddString ConfigNew (some "S".toList) "k".toList "v".toList) ':').2 ∧
    "k=v\n".toList ∈
      ConfigPrint (ConfigSetKeyValSepChar (ConfigAddString ConfigNew (some "S".toList) "k".toList "v".toList) ':').2 := by
  decide

/-- Claim C5, amended: ConfigPrint always emits the literal '=' between key
and value, regardless of the configured separator; headers, entry lines and
trailing blanks otherwise follow the claimed layout. -/
theorem ConfigPrint_eq_printSpec_default_sep (cfg : Config) :
    ConfigPrint cfg = printSpec '=' cfg := rfl

/-! ### Claim C6 -/

/-- Claim C6, counterexample: a reachable store whose default (unnamed)
section exists and holds zero entries, yet ConfigGetSectionCount returns the
full total 2 rather than total minus one, because the C code tests
`TAILQ_FIRST(&cfg->sect_list)->numofkv` -- the first section in the list,
here the named section "A" -- not the default section. -/
theorem ConfigGetSectionCount_default_section_cex :
    ConfigRemoveSection (ConfigAddString ConfigNew (some "A".toList) "k".toList "v".toList) none
      = .ok c6mid ∧
    ConfigRemoveKey (ConfigAddString c6mid none "k2".toList "v2".toList) none "k2".toList
      = .ok c6final ∧
    ConfigGetSection c6final none = some { name := none, kvs := [] } ∧
    c6final.sects.length = 2 ∧
    ConfigGetSectionCount c6final = some 2 := by
  decide

/-- Claim C6, amended: ConfigGetSectionCount subtracts one exactly when the
first Section in the store's list holds zero entries (and dereferences NULL
when no sections remain, hence the nonempty-list hypothesis). The first
section is the default section only as long as the default section has not
been removed; while it is first, the claimed behavior follows, in particular
a fresh store reports 0 and after add_string("S","k","v") it reports 1. -/
theorem ConfigGetSectionCount_first_section (cfg : Config) (s : ConfigSection)
    (rest : List ConfigSection) (h : cfg.sects = s :: rest) :
    ConfigGetSectionCount cfg =
      some (if 0 < s.kvs.length then (cfg.sects.length : Int)
            else (cfg.sects.length : Int) - 1) ∧
    ConfigGetSectionCount ConfigNew = some 0 ∧
    ConfigGetSectionCount
        (ConfigAddString ConfigNew (some "S".toList) "k".toList "v".toList) = some 1 := by
  refine ⟨?_, by decide, by decide⟩
  simp [ConfigGetSectionCount, h]

/-- Witness for ConfigGetSectionCount_first_section at the fresh store. -/
theorem ConfigGetSectionCount_first_section_witness :
    ConfigGetSectionCount ConfigNew =
      some (if 0 < ({ name := none, kvs := [] } : ConfigSection).kvs.length
            then (ConfigNew.sects.length : Int)
            else (ConfigNew.sects.length : Int) - 1) ∧
    ConfigGetSectionCount ConfigNew = some 0 ∧
    ConfigGetSectionCount
        (ConfigAddString ConfigNew (some "S".toList) "k".toList "v".toList) = some 1 :=
  ConfigGetSectionCount_first_section ConfigNew { name := none, kvs := [] } [] rfl

/-! ### Claim C7 -/

/-- Claim C7: when the ConfigRead loop stops with a parse error, a handle
that was NULL on entry (fresh store created inside the call) is freed and
left NULL alongside the returned error, while a caller-supplied handle keeps
the partially populated store alongside the returned error -- partial
progress is not rolled back. -/
theorem ConfigRead_error_handle (lines : List (List Char)) (cfg0 pc1 pc2 : Config)
    (r1 r2 : ConfigRet) :
    (readLines ConfigNew none lines = .err r1 pc1 →
      ConfigRead none lines = .ret none r1) ∧
    (readLines cfg0 none lines = .err r2 pc2 →
      ConfigRead (some cfg0) lines = .ret (some pc2) r2) := by
  constructor <;> intro h <;> simp [ConfigRead, Option.getD, h]

/-- Witness for ConfigRead_error_handle on a concrete failing input: the
fresh-handle call ends with a NULL handle, the supplied-handle call keeps
section A with x=1 already populated. -/
theorem ConfigRead_error_handle_witness :
    ConfigRead none c7lines = .ret none .CONFIG_ERR_PARSING ∧
    ConfigRead (some ConfigNew) c7lines = .ret (some c7partial) .CONFIG_ERR_PARSING :=
  ⟨(ConfigRead_error_handle c7lines ConfigNew c7partial c7partial
      .CONFIG_ERR_PARSING .CONFIG_ERR_PARSING).1 (by decide),
   (ConfigRead_error_handle c7lines ConfigNew c7partial c7partial
      .CONFIG_ERR_PARSING .CONFIG_ERR_PARSING).2 (by decide)⟩

/-! ### The effect of ConfigAddString on the section list -/

theorem ConfigAddString_found (cfg : Config) (sec : Option (List Char))
    (key value : List Char) (s : ConfigSection)
    (hs : ConfigGetSection cfg sec = some s) :
    ∃ p q, cfg.sects = p ++ s :: q ∧ (∀ t ∈ p, t.name ≠ sec) ∧ s.name = sec ∧
      (ConfigAddString cfg sec key value).sects =
        p ++ { s with kvs := upsertKV s.kvs key (storeValue cfg.comment_chars value) } :: q ∧
      ConfigGetSection (ConfigAddString cfg sec key value) sec =
        some { s with kvs := upsertKV s.kvs key (storeValue cfg.comment_chars value) } := by
  obtain ⟨p, q, hsects, hall, hba⟩ := find?_split _ _ _ hs
  have hsname : s.name = sec := by simpa using hba
  have hallne : ∀ t ∈ p, t.name ≠ sec := fun t ht => by simpa using hall t ht
  have hadds : (ConfigAddString cfg sec key value).sects =
      p ++ { s with kvs := upsertKV s.kvs key (storeValue cfg.comment_chars value) } :: q := by
    simp only [ConfigAddString, ConfigAddSection, hs]
    rw [show cfg.sects = p ++ s :: q from hsects,
      updateSect_split p q s sec _ hallne hsname]
  refine ⟨p, q, hsects, hallne, hsname, hadds, ?_⟩
  unfold ConfigGetSection
  rw [hadds, find?_append_of_none _ _ _ (fun t ht => by simp [hallne t ht]),
    List.find?_cons_of_pos _ (by simp [hsname])]

theorem ConfigAddString_absent (cfg : Config) (sec : Option (List Char))
    (key value : List Char) (hs : ConfigGetSection cfg sec = none) :
    (ConfigAddString cfg sec key value).sects =
      cfg.sects ++ [{ name := sec,
                      kvs := [{ key := key, value := storeValue cfg.comment_chars value }] }] ∧
    ConfigGetSection (ConfigAddString cfg sec key value) sec =
      some { name := sec,
             kvs := [{ key := key, value := storeValue cfg.comment_chars value }] } := by
  have hallne : ∀ t ∈ cfg.sects, t.name ≠ sec := fun t ht => by
    simpa using List.find?_eq_none.1 hs t ht
  have hadds : (ConfigAddString cfg sec key value).sects =
      cfg.sects ++ [{ name := sec,
                      kvs := [{ key := key, value := storeValue cfg.comment_chars value }] }] := by
    simp only [ConfigAddString, ConfigAddSection, hs]
    show updateSect (cfg.sects ++ [{ name := sec, kvs := [] }]) sec _ = _
    rw [show cfg.sects ++ [({ name := sec, kvs := [] } : ConfigSection)] =
        cfg.sects ++ ({ name := sec, kvs := [] } : ConfigSection) :: [] from rfl,
      updateSect_split cfg.sects [] { name := sec, kvs := [] } sec _ hallne rfl]
    rfl
  refine ⟨hadds, ?_⟩
  unfold ConfigGetSection
  rw [hadds, find?_append_of_none _ _ _ (fun t ht => by simp [hallne t ht]),
    List.find?_cons_of_pos _ (by simp)]

/-! ### Claim C8 -/

/-- Claim C8: on a key already present in the section, ConfigAddString
replaces that entry's value in place -- same position, same key, no
duplicate entry, section count and the section's key count unchanged; on a
key not present it appends one new entry at the tail, raising the key count
by exactly one (the section count is unchanged since the section already
exists). -/
theorem ConfigAddString_replace_or_append (cfg : Config) (sec : Option (List Char))
    (key value : List Char) (s : ConfigSection)
    (hs : ConfigGetSection cfg sec = some s) :
    (ConfigAddString cfg sec key value).sects.length = cfg.sects.length ∧
    ∃ s2, ConfigGetSection (ConfigAddString cfg sec key value) sec = some s2 ∧
      (∀ pre kv post, s.kvs = pre ++ kv :: post → kv.key = key →
        (∀ e ∈ pre, e.key ≠ key) →
        s2.kvs = pre ++ { key := key, value := storeValue cfg.comment_chars value } :: post ∧
        s2.kvs.length = s.kvs.length) ∧
      ((∀ e ∈ s.kvs, e.key ≠ key) →
        s2.kvs = s.kvs ++ [{ key := key, value := storeValue cfg.comment_chars value }] ∧
        s2.kvs.length = s.kvs.length + 1) := by
  obtain ⟨p, q, hsects, hallne, hsname, hadds, hget2⟩ :=
    ConfigAddString_found cfg sec key value s hs
  constructor
  · rw [hadds, hsects]; simp
  · refine ⟨_, hget2, ?_, ?_⟩
    · intro pre kv post hkvs hkey hpre
      have hrepl : upsertKV s.kvs key (storeValue cfg.comment_chars value) =
          pre ++ { key := key, value := storeValue cfg.comment_chars value } :: post := by
        rw [hkvs]; exact upsertKV_replace pre post kv key _ hkey hpre
      exact ⟨hrepl, by rw [hrepl, hkvs]; simp⟩
    · intro hnone
      have happ : upsertKV s.kvs key (storeValue cfg.comment_chars value) =
          s.kvs ++ [{ key := key, value := storeValue cfg.comment_chars value }] :=
        upsertKV_append _ _ _ hnone
      exact ⟨happ, by rw [happ]; simp⟩

/-- Witness for ConfigAddString_replace_or_append: replacing key k of the
one-entry section S of c8cfg. -/
theorem ConfigAddString_replace_or_append_witness :
    (ConfigAddString c8cfg (some "S".toList) "k".toList "w".toList).sects.length =
      c8cfg.sects.length ∧
    ∃ s2, ConfigGetSection (ConfigAddString c8cfg (some "S".toList) "k".toList "w".toList)
        (some "S".toList) = some s2 ∧
      (∀ pre kv post, c8sect.kvs = pre ++ kv :: post → kv.key = "k".toList →
        (∀ e ∈ pre, e.key ≠ "k".toList) →
        s2.kvs = pre ++ { key := "k".toList,
                          value := storeValue c8cfg.comment_chars "w".toList } :: post ∧
        s2.kvs.length = c8sect.kvs.length) ∧
      ((∀ e ∈ c8sect.kvs, e.key ≠ "k".toList) →
        s2.kvs = c8sect.kvs ++ [{ key := "k".toList,
                                  value := storeValue c8cfg.comment_chars "w".toList }] ∧
        s2.kvs.length = c8sect.kvs.length + 1) :=
  ConfigAddString_replace_or_append c8cfg (some "S".toList) "k".toList "w".toList c8sect
    (by decide)

/-! ### Claim C9 -/

/-- Claim C9, counterexample: the claim says the stored value always has
trailing whitespace trimmed, but adding the value "ab " stores "ab "
unchanged -- the `*q &&` guard skips the trim when the scan reaches the end
of the string -- while the claimed trim would have stored "ab". -/
theorem ConfigAddString_trailing_space_cex :
    lookupVal (ConfigAddString ConfigNew (some "S".toList) "k".toList "ab ".toList)
        (some "S".toList) "k".toList = some "ab ".toList ∧
    "ab ".toList ≠ "ab".toList ∧
    trimTrailing "ab ".toList = "ab".toList := by
  decide

/-- Claim C9, amended: for every store and arguments, the value that
add_string stores (and read_string then returns through lookup) is
`storeValue` of the argument: leading whitespace skipped, the scan stopped
at the first CR, LF or configured comment character, and trailing whitespace
trimmed only when that scan stopped before the end of the string. -/
theorem ConfigAddString_stores_transformed_value (cfg : Config)
    (sec : Option (List Char)) (key v : List Char) :
    lookupVal (ConfigAddString cfg sec key v) sec key =
      some (storeValue cfg.comment_chars v) := by
  cases hs : ConfigGetSection cfg sec with
  | some s =>
    obtain ⟨p, q, _, _, _, _, hget2⟩ := ConfigAddString_found cfg sec key v s hs
    unfold lookupVal
    rw [hget2]
    simp [ConfigGetKeyValue, find?_upsertKV]
  | none =>
    obtain ⟨_, hget2⟩ := ConfigAddString_absent cfg sec key v hs
    unfold lookupVal
    rw [hget2]
    simp [ConfigGetKeyValue, List.find?]

/-! ### Claim C10 -/

/-- Claim C10: with a valid buffer (size at least 1) ConfigReadString always
leaves a NUL-terminated string of at most size-1 characters in the buffer,
and when the entry is found it returns Ok with the stored value silently
truncated to size-1 characters, even when the value is longer. -/
theorem ConfigReadString_truncates (cfg : Config) (sec : Option (List Char))
    (key : List Char) (size : Nat) (dfl : List Char) (h : 1 ≤ size) :
    ∃ out, (ConfigReadString cfg sec key size dfl).2 = some out ∧
      out.length ≤ size - 1 ∧
      ∀ s kv, ConfigGetSection cfg sec = some s → ConfigGetKeyValue s key = some kv →
        (ConfigReadString cfg sec key size dfl).1 = .CONFIG_RET_OK ∧
        out = kv.value.take (size - 1) := by
  have hsize : ¬ size < 1 := by omega
  cases hs : ConfigGetSection cfg sec with
  | none =>
    refine ⟨dfl.take (size - 1), ?_, ?_, ?_⟩
    · simp [ConfigReadString, hsize, hs]
    · rw [List.length_take]; exact min_le_left _ _
    · intro s kv hgs
      exact absurd hgs (by simp)
  | some s =>
    cases hk : ConfigGetKeyValue s key with
    | none =>
      refine ⟨dfl.take (size - 1), ?_, ?_, ?_⟩
      · simp [ConfigReadString, hsize, hs, hk]
      · rw [List.length_take]; exact min_le_left _ _
      · intro s2 kv hgs hkv
        injection hgs with hg
        subst hg
        rw [hk] at hkv
        exact absurd hkv (by simp)
    | some kv =>
      refine ⟨kv.value.take (size - 1), ?_, ?_, ?_⟩
      · simp [ConfigReadString, hsize, hs, hk]
      · rw [List.length_take]; exact min_le_left _ _
      · intro s2 kv2 hgs hkv
        injection hgs with hg
        subst hg
        rw [hk] at hkv
        injection hkv with hk2
        subst hk2
        refine ⟨?_, rfl⟩
        simp [ConfigReadString, hsize, hs, hk]

/-- Witness for ConfigReadString_truncates: reading the five-character value
"hello" of c10cfg into a three-byte buffer. -/
theorem ConfigReadString_truncates_witness :
    ∃ out, (ConfigReadString c10cfg (some "S".toList) "k".toList 3 "d".toList).2 = some out ∧
      out.length ≤ 3 - 1 ∧
      ∀ s kv, ConfigGetSection c10cfg (some "S".toList) = some s →
        ConfigGetKeyValue s "k".toList = some kv →
        (ConfigReadString c10cfg (some "S".toList) "k".toList 3 "d".toList).1 =
          .CONFIG_RET_OK ∧
        out = kv.value.take (3 - 1) :=
  ConfigReadString_truncates c10cfg (some "S".toList) "k".toList 3 "d".toList (by decide)

/-! ### Claim C4 -/

/-- Claim C4, counterexample: with the boolean literal pair configured to
"on"/"off", reading the stored value "on" yields InvalidValue, not Ok/true:
ConfigReadBool never consults the configured pair, only the fixed alias
chain true/yes/1 and false/no/0. -/
theorem ConfigReadBool_ignores_configured_pair :
    c4cfg.true_str = "on".toList ∧
    lookupVal c4cfg (some "S".toList) "k".toList = some "on".toList ∧
    ConfigReadBool c4cfg (some "S".toList) "k".toList false =
      (.CONFIG_ERR_INVALID_VALUE, false) := by
  decide

/-- Claim C4, amended: for every found entry, ConfigReadBool returns Ok
exactly when the value case-insensitively equals one of the six fixed
aliases true/false/yes/no/1/0 (setting the output to the corresponding
boolean), independently of the literal pair configured via
ConfigSetBoolString; any other value yields InvalidValue with the output at
the caller's default. -/
theorem ConfigReadBool_fixed_aliases (cfg : Config) (sec : Option (List Char))
    (key : List Char) (dfl : Bool) (s : ConfigSection) (kv : ConfigKeyValue)
    (hs : ConfigGetSection cfg sec = some s) (hkv : ConfigGetKeyValue s key = some kv) :
    ConfigReadBool cfg sec key dfl =
      match boolOfValue kv.value with
      | some b => (.CONFIG_RET_OK, b)
      | none => (.CONFIG_ERR_INVALID_VALUE, dfl) := by
  have ht : "true".toList.map lowerC = "true".toList := by decide
  have hy : "yes".toList.map lowerC = "yes".toList := by decide
  have h1 : "1".toList.map lowerC = "1".toList := by decide
  have hf : "false".toList.map lowerC = "false".toList := by decide
  have hn : "no".toList.map lowerC = "no".toList := by decide
  have h0 : "0".toList.map lowerC = "0".toList := by decide
  simp only [ConfigReadBool, hs, hkv, boolOfValue, eqNoCase, ht, hy, h1, hf, hn, h0,
    Bool.or_eq_true, beq_iff_eq, or_assoc]
  by_cases hT : List.map lowerC kv.value = ['t', 'r', 'u', 'e'] ∨
      List.map lowerC kv.value = ['y', 'e', 's'] ∨ List.map lowerC kv.value = ['1']
  · simp [hT]
  · by_cases hF : List.map lowerC kv.value = ['f', 'a', 'l', 's', 'e'] ∨
        List.map lowerC kv.value = ['n', 'o'] ∨ List.map lowerC kv.value = ['0']
    · simp [hT, hF]
    · simp [hT, hF]

/-- Witness for ConfigReadBool_fixed_aliases: the stored value "Yes" under
default settings reads as Ok/true through the case-insensitive alias. -/
theorem ConfigReadBool_fixed_aliases_witness :
    ConfigReadBool c4yes (some "S".toList) "k".toList false =
      match boolOfValue ({ key := "k".toList, value := "Yes".toList } : ConfigKeyValue).value with
      | some b => (.CONFIG_RET_OK, b)
      | none => (.CONFIG_ERR_INVALID_VALUE, false) :=
  ConfigReadBool_fixed_aliases c4yes (some "S".toList) "k".toList false
    { name := some "S".toList, kvs := [{ key := "k".toList, value := "Yes".toList }] }
    { key := "k".toList, value := "Yes".toList } (by decide) (by decide)

/-! ### Scanner lemmas for the round-trip proof -/

theorem takeWhile_all (P : Char → Bool) (l : List Char) (h : ∀ c ∈ l, P c = true) :
    l.takeWhile P = l := by
  induction l with
  | nil => rfl
  | cons c cs ih =>
    rw [List.takeWhile_cons, if_pos (h c (by simp))]
    rw [ih fun y hy => h y (by simp [hy])]

theorem takeWhile_append_cons (P : Char → Bool) (l : List Char) (r : Char) (t : List Char)
    (hl : ∀ c ∈ l, P c = true) (hr : P r = false) :
    (l ++ r :: t).takeWhile P = l := by
  induction l with
  | nil => simp [List.takeWhile_cons, hr]
  | cons c cs ih =>
    rw [List.cons_append, List.takeWhile_cons, if_pos (hl c (by simp))]
    rw [ih fun y hy => hl y (by simp [hy])]

theorem dropWhile_cons_of_neg (P : Char → Bool) (c : Char) (cs : List Char)
    (h : P c = false) : (c :: cs).dropWhile P = c :: cs := by
  rw [List.dropWhile_cons, if_neg (by simp [h])]

theorem trimTrailing_eq_self (l : List Char)
    (h : isSpaceC (l.reverse.headD ' ') = false) : trimTrailing l = l := by
  cases hr : l.reverse with
  | nil =>
    have hl : l = [] := by simpa using congrArg List.reverse hr
    simp [trimTrailing, hr, hl]
  | cons c cs =>
    rw [hr] at h
    simp only [List.headD_cons] at h
    rw [trimTrailing, hr, dropWhile_cons_of_neg _ _ _ h, ← hr, List.reverse_reverse]

theorem goodTok_parts (n : List Char)
    (hn : (!n.isEmpty && noEdgeSpace n && n.all (fun c => !(c = '\r' || c = '\n' || c = ']' || c = '#'))) = true
        ∨ (!n.isEmpty && noEdgeSpace n && n.all (fun c => !(c = '\r' || c = '\n' || c = '=' || c = '#'))) = true) :
    n ≠ [] ∧ isSpaceC (n.headD ' ') = false ∧ isSpaceC (n.reverse.headD ' ') = false := by
  rcases hn with hn | hn <;>
  · simp only [Bool.and_eq_true, Bool.not_eq_true', noEdgeSpace, List.all_eq_true] at hn
    obtain ⟨⟨hne, hh, hl⟩, _⟩ := hn
    refine ⟨?_, hh, hl⟩
    intro h
    rw [h] at hne
    simp at hne

theorem goodName_parts (n : List Char) (hn : goodName n = true) :
    n ≠ [] ∧ isSpaceC (n.headD ' ') = false ∧ isSpaceC (n.reverse.headD ' ') = false ∧
    ∀ c ∈ n, c ≠ '\r' ∧ c ≠ '\n' ∧ c ≠ ']' ∧ c ≠ '#' := by
  simp only [goodName, Bool.and_eq_true, List.all_eq_true] at hn
  obtain ⟨⟨hne, hedge⟩, hchars⟩ := hn
  obtain ⟨h1, h2, h3⟩ := goodTok_parts n (.inl (by
    simp only [goodName, Bool.and_eq_true, List.all_eq_true]
    exact ⟨⟨hne, hedge⟩, hchars⟩))
  refine ⟨h1, h2, h3, ?_⟩
  intro c hcm
  have := hchars c hcm
  simp only [Bool.not_eq_true', Bool.or_eq_false_iff, decide_eq_false_iff_not] at this
  exact ⟨this.1.1.1, this.1.1.2, this.1.2, this.2⟩

theorem goodKey_parts (k : List Char) (hk : goodKey k = true) :
    k ≠ [] ∧ isSpaceC (k.headD ' ') = false ∧ isSpaceC (k.reverse.headD ' ') = false ∧
    k.headD ' ' ≠ '[' ∧
    ∀ c ∈ k, c ≠ '\r' ∧ c ≠ '\n' ∧ c ≠ '=' ∧ c ≠ '#' := by
  simp only [goodKey, Bool.and_eq_true, List.all_eq_true, Bool.not_eq_true',
    decide_eq_false_iff_not, noEdgeSpace] at hk
  obtain ⟨⟨⟨hne, hh, hl⟩, hbr⟩, hchars⟩ := hk
  refine ⟨?_, hh, hl, hbr, ?_⟩
  · intro h; rw [h] at hne; simp at hne
  · intro c hcm
    have := hchars c hcm
    simp only [Bool.or_eq_false_iff, decide_eq_false_iff_not] at this
    exact ⟨this.1.1.1, this.1.1.2, this.1.2, this.2⟩

theorem goodVal_parts (v : List Char) (hv : goodVal v = true) :
    v ≠ [] ∧ isSpaceC (v.headD ' ') = false ∧ isSpaceC (v.reverse.headD ' ') = false ∧
    ∀ c ∈ v, c ≠ '\r' ∧ c ≠ '\n' ∧ c ≠ '=' ∧ c ≠ '#' := by
  simp only [goodVal, Bool.and_eq_true, List.all_eq_true, Bool.not_eq_true', noEdgeSpace] at hv
  obtain ⟨⟨hne, hh, hl⟩, hchars⟩ := hv
  refine ⟨?_, hh, hl, ?_⟩
  · intro h; rw [h] at hne; simp at hne
  · intro c hcm
    have := hchars c hcm
    simp only [Bool.or_eq_false_iff, decide_eq_false_iff_not] at this
    exact ⟨this.1.1.1, this.1.1.2, this.1.2, this.2⟩

theorem GetSectName_print (cfg : Config) (n : List Char)
    (hc : cfg.comment_chars = ['#']) (hn : goodName n = true) :
    GetSectName cfg ('[' :: (n ++ [']', '\n'])) = .ok n := by
  obtain ⟨hnnil, hhead, hlast, hchars⟩ := goodName_parts n hn
  have hdrop : ('[' :: (n ++ [']', '\n'])).dropWhile isSpaceC = '[' :: (n ++ [']', '\n']) :=
    dropWhile_cons_of_neg _ _ _ rfl
  have hp3 : (n ++ [']', '\n']).dropWhile isSpaceC = n ++ [']', '\n'] := by
    cases n with
    | nil => exact absurd rfl hnnil
    | cons c cs =>
      rw [List.cons_append]
      exact dropWhile_cons_of_neg _ _ _ (by simpa using hhead)
  have hspanP : ∀ c ∈ n,
      (fun c => !(c = '\r' || c = '\n' || c = ']' || cfg.comment_chars.contains c)) c = true := by
    intro c hcm
    obtain ⟨h1, h2, h3, h4⟩ := hchars c hcm
    simp [hc, List.contains, h1, h2, h3, h4]
  have hspan : (n ++ [']', '\n']).takeWhile
      (fun c => !(c = '\r' || c = '\n' || c = ']' || cfg.comment_chars.contains c)) = n :=
    takeWhile_append_cons _ _ _ _ hspanP (by simp)
  have htrim : trimTrailing n = n := trimTrailing_eq_self n hlast
  have hische : n.isEmpty = false := by simp [hnnil]
  simp only [GetSectName, hdrop, hp3, hspan, List.drop_left, htrim, hische]
  rfl

theorem GetKeyVal_print (cfg : Config) (k v : List Char)
    (hc : cfg.comment_chars = ['#']) (hsep : cfg.keyval_sep = '=')
    (hk : goodKey k = true) (hv : goodVal v = true) :
    GetKeyVal cfg (k ++ '=' :: (v ++ ['\n'])) = .ok (k, v) := by
  obtain ⟨hknil, hkhead, hklast, _, hkchars⟩ := goodKey_parts k hk
  obtain ⟨hvnil, hvhead, hvlast, hvchars⟩ := goodVal_parts v hv
  have hp1 : (k ++ '=' :: (v ++ ['\n'])).dropWhile isSpaceC = k ++ '=' :: (v ++ ['\n']) := by
    cases k with
    | nil => exact absurd rfl hknil
    | cons c cs =>
      rw [List.cons_append]
      exact dropWhile_cons_of_neg _ _ _ (by simpa using hkhead)
  have hkspanP : ∀ c ∈ k,
      (fun c => !(c = '\r' || c = '\n' || c = cfg.keyval_sep || cfg.comment_chars.contains c)) c
        = true := by
    intro c hcm
    obtain ⟨h1, h2, h3, h4⟩ := hkchars c hcm
    simp [hc, hsep, List.contains, h1, h2, h3, h4]
  have hkspan : (k ++ '=' :: (v ++ ['\n'])).takeWhile
      (fun c => !(c = '\r' || c = '\n' || c = cfg.keyval_sep || cfg.comment_chars.contains c))
        = k :=
    takeWhile_append_cons _ _ _ _ hkspanP (by simp [hsep])
  have hktrim : trimTrailing k = k := trimTrailing_eq_self k hklast
  have hkise : k.isEmpty = false := by simp [hknil]
  have hv1 : (v ++ ['\n']).dropWhile isSpaceC = v ++ ['\n'] := by
    cases v with
    | nil => exact absurd rfl hvnil
    | cons c cs =>
      rw [List.cons_append]
      exact dropWhile_cons_of_neg _ _ _ (by simpa using hvhead)
  have hvspanP : ∀ c ∈ v,
      (fun c => !(c = '\r' || c = '\n' || cfg.comment_chars.contains c)) c = true := by
    intro c hcm
    obtain ⟨h1, h2, _, h4⟩ := hvchars c hcm
    simp [hc, List.contains, h1, h2, h4]
  have hvspan : (v ++ ['\n']).takeWhile
      (fun c => !(c = '\r' || c = '\n' || cfg.comment_chars.contains c)) = v := by
    rw [show v ++ ['\n'] = v ++ '\n' :: [] from rfl]
    exact takeWhile_append_cons _ _ _ _ hvspanP (by simp)
  have hvtrim : trimTrailing v = v := trimTrailing_eq_self v hvlast
  have hvise : v.isEmpty = false := by simp [hvnil]
  have hvdrop : (v ++ ['\n']).drop v.length = ['\n'] := List.drop_left v ['\n']
  rw [hsep] at hkspan
  simp only [GetKeyVal, hsep, hp1, hkspan, List.drop_left, hktrim, hkise,
    hv1, hvspan, hvdrop, hvtrim, hvise]
  simp [hvise]

theorem storeValue_id (com : List Char) (v : List Char)
    (hcom : com = ['#']) (hv : goodVal v = true) : storeValue com v = v := by
  obtain ⟨hvnil, hvhead, _, hvchars⟩ := goodVal_parts v hv
  have hp : v.dropWhile isSpaceC = v := by
    cases v with
    | nil => exact absurd rfl hvnil
    | cons c cs => exact dropWhile_cons_of_neg _ _ _ (by simpa using hvhead)
  have hspan : v.takeWhile (fun c => !(c = '\r' || c = '\n' || com.contains c)) = v := by
    refine takeWhile_all _ _ ?_
    intro c hcm
    obtain ⟨h1, h2, _, h4⟩ := hvchars c hcm
    simp [hcom, List.contains, h1, h2, h4]
  simp only [storeValue, hp, hspan, List.drop_length]
  rfl

/-! ### The ConfigRead loop on printed output -/

theorem ConfigAddSection_mkCfg_fresh (l : List ConfigSection) (n : List Char)
    (h : ∀ s ∈ l, s.name ≠ some n) :
    ConfigAddSection (mkCfg l) (some n) =
      (mkCfg (l ++ [{ name := some n, kvs := [] }]), { name := some n, kvs := [] }) := by
  have hfind : ConfigGetSection (mkCfg l) (some n) = none := by
    unfold ConfigGetSection
    exact List.find?_eq_none.2 fun x hx => by simp [h x hx]
  simp only [ConfigAddSection, hfind]
  rfl

theorem ConfigAddString_mkCfg_last (pre : List ConfigSection) (n : List Char)
    (acc : List ConfigKeyValue) (k v : List Char)
    (hpre : ∀ s ∈ pre, s.name ≠ some n)
    (hacc : ∀ e ∈ acc, e.key ≠ k)
    (hv : goodVal v = true) :
    ConfigAddString (mkCfg (pre ++ [{ name := some n, kvs := acc }])) (some n) k v =
      mkCfg (pre ++ [{ name := some n, kvs := acc ++ [{ key := k, value := v }] }]) := by
  have hfind : ConfigGetSection (mkCfg (pre ++ [{ name := some n, kvs := acc }])) (some n) =
      some { name := some n, kvs := acc } := by
    unfold ConfigGetSection
    show ((pre ++ [({ name := some n, kvs := acc } : ConfigSection)]).find? _) = _
    rw [find?_append_of_none _ _ _ (fun t ht => by simp [hpre t ht]),
      List.find?_cons_of_pos _ (by simp)]
  have hsv : storeValue (mkCfg (pre ++ [{ name := some n, kvs := acc }])).comment_chars v = v :=
    storeValue_id _ _ rfl hv
  have hupd : updateSect (pre ++ [({ name := some n, kvs := acc } : ConfigSection)]) (some n)
      (fun kvs => upsertKV kvs k v) =
      pre ++ [{ name := some n, kvs := acc ++ [{ key := k, value := v }] }] := by
    rw [updateSect_split pre [] { name := some n, kvs := acc } (some n) _ hpre rfl]
    simp [upsertKV_append acc k v hacc]
  simp only [ConfigAddString, ConfigAddSection, hfind, hsv]
  rw [show (mkCfg (pre ++ [({ name := some n, kvs := acc } : ConfigSection)])).sects =
      pre ++ [({ name := some n, kvs := acc } : ConfigSection)] from rfl, hupd]
  rfl

theorem processLine_blank (cfg : Config) (cur : Option (Option (List Char))) :
    processLine cfg cur ['\n'] = .next cfg cur := rfl

theorem processLine_header (cfg : Config) (cur : Option (Option (List Char))) (n : List Char)
    (hc : cfg.comment_chars = ['#']) (hn : goodName n = true) :
    processLine cfg cur ('[' :: (n ++ [']', '\n'])) =
      .next (ConfigAddSection cfg (some n)).1 (some (some n)) := by
  have hdrop : ('[' :: (n ++ [']', '\n'])).dropWhile isSpaceC = '[' :: (n ++ [']', '\n']) :=
    dropWhile_cons_of_neg _ _ _ rfl
  have hcont : cfg.comment_chars.contains '[' = false := by rw [hc]; rfl
  simp only [processLine, hdrop, hcont, GetSectName_print cfg n hc hn]
  rfl

theorem processLine_kv (cfg : Config) (sname : Option (List Char)) (k v : List Char)
    (hc : cfg.comment_chars = ['#']) (hsep : cfg.keyval_sep = '=')
    (hk : goodKey k = true) (hv : goodVal v = true) :
    processLine cfg (some sname) (k ++ '=' :: (v ++ ['\n'])) =
      .next (ConfigAddString cfg sname k v) (some sname) := by
  obtain ⟨hknil, hkhead, _, hkbr, hkchars⟩ := goodKey_parts k hk
  cases k with
  | nil => exact absurd rfl hknil
  | cons c cs =>
    have hch : isSpaceC c = false := by simpa using hkhead
    have hdrop : (c :: (cs ++ '=' :: (v ++ ['\n']))).dropWhile isSpaceC =
        c :: (cs ++ '=' :: (v ++ ['\n'])) := dropWhile_cons_of_neg _ _ _ hch
    obtain ⟨h1, h2, h3, h4⟩ := hkchars c (by simp)
    have hcont : cfg.comment_chars.contains c = false := by
      rw [hc]; simp [List.contains, h4]
    have hbr : ¬ (c = '[') := by
      simp only [List.headD_cons] at hkbr
      exact hkbr
    have hgkv : GetKeyVal cfg (c :: (cs ++ '=' :: (v ++ ['\n']))) = .ok (c :: cs, v) := by
      rw [← List.cons_append]
      exact GetKeyVal_print cfg (c :: cs) v hc hsep hk hv
    rw [List.cons_append]
    simp only [processLine, hdrop, hcont, hgkv, Bool.false_eq_true, if_false, if_neg hbr]

theorem readLines_append (cfg : Config) (cur : Option (Option (List Char)))
    (xs ys : List (List Char)) :
    readLines cfg cur (xs ++ ys) =
      match readLines cfg cur xs with
      | .ok c cu => readLines c cu ys
      | .err r c => .err r c
      | .nullDeref => .nullDeref := by
  induction xs generalizing cfg cur with
  | nil => rfl
  | cons l ls ih =>
    rw [List.cons_append]
    simp only [readLines]
    cases hp : processLine cfg cur l with
    | next c cu => exact ih c cu
    | fail r c => rfl
    | crash => rfl

theorem readLines_kv_block (pre : List ConfigSection) (n : List Char)
    (kvs : List ConfigKeyValue) :
    ∀ acc : List ConfigKeyValue,
    (∀ s ∈ pre, s.name ≠ some n) →
    (∀ kv ∈ kvs, goodKey kv.key = true ∧ goodVal kv.value = true) →
    distinctKeys kvs = true →
    (∀ kv ∈ kvs, ∀ e ∈ acc, e.key ≠ kv.key) →
    readLines (mkCfg (pre ++ [{ name := some n, kvs := acc }])) (some (some n))
        (kvs.map (fun kv => kv.key ++ '=' :: (kv.value ++ ['\n'])) ++ [['\n']])
      = .ok (mkCfg (pre ++ [{ name := some n, kvs := acc ++ kvs }])) (some (some n)) := by
  induction kvs with
  | nil =>
    intro acc hpre hkvs hdk hdisj
    simp only [List.map_nil, List.nil_append, List.append_nil, readLines, processLine_blank]
  | cons kv rest ih =>
    intro acc hpre hkvs hdk hdisj
    simp only [List.map_cons, List.cons_append, readLines]
    obtain ⟨hgk, hgv⟩ := hkvs kv (by simp)
    rw [processLine_kv _ (some n) kv.key kv.value rfl rfl hgk hgv]
    rw [ConfigAddString_mkCfg_last pre n acc kv.key kv.value hpre
      (fun e he => hdisj kv (by simp) e he) hgv]
    simp only [distinctKeys, Bool.and_eq_true, List.all_eq_true] at hdk
    obtain ⟨hdkhead, hdkrest⟩ := hdk
    have hres := ih (acc ++ [kv]) hpre
      (fun x hx => hkvs x (by simp [hx])) hdkrest
      (fun x hx e he => by
        rcases List.mem_append.1 he with he | he
        · exact hdisj x (by simp [hx]) e he
        · have he' : e = kv := by simpa using he
          subst he'
          have := hdkhead x hx
          simp only [Bool.not_eq_true', beq_eq_false_iff_ne, ne_eq] at this
          exact fun hc => this hc.symm)
    rw [List.append_assoc, List.singleton_append] at hres
    exact hres

theorem readLines_section_block (pre : List ConfigSection)
    (cur : Option (Option (List Char))) (n : List Char) (kvs : List ConfigKeyValue)
    (hpre : ∀ s ∈ pre, s.name ≠ some n)
    (hn : goodName n = true)
    (hkvs : ∀ kv ∈ kvs, goodKey kv.key = true ∧ goodVal kv.value = true)
    (hdk : distinctKeys kvs = true) :
    readLines (mkCfg pre) cur (printSect { name := some n, kvs := kvs }) =
      .ok (mkCfg (pre ++ [{ name := some n, kvs := kvs }])) (some (some n)) := by
  have hps : printSect { name := some n, kvs := kvs } =
      ('[' :: (n ++ [']', '\n'])) ::
        (kvs.map (fun kv => kv.key ++ '=' :: (kv.value ++ ['\n'])) ++ [['\n']]) := by
    simp [printSect]
  rw [hps]
  simp only [readLines]
  rw [processLine_header (mkCfg pre) cur n rfl hn, ConfigAddSection_mkCfg_fresh pre n hpre]
  have hblk := readLines_kv_block pre n kvs [] hpre hkvs hdk (by simp)
  simpa using hblk

theorem readLines_sections (sl : List ConfigSection) :
    ∀ (pre : List ConfigSection) (cur : Option (Option (List Char))),
    (∀ s ∈ sl, sectOK s = true) →
    distinctNames sl = true →
    (∀ s ∈ sl, ∀ n, s.name = some n → ∀ t ∈ pre, t.name ≠ some n) →
    ∃ cur2, readLines (mkCfg pre) cur ((sl.map printSect).flatten) =
      .ok (mkCfg (pre ++ namedSects sl)) cur2 := by
  induction sl with
  | nil =>
    intro pre cur _ _ _
    exact ⟨cur, by simp [readLines, namedSects]⟩
  | cons s rest ih =>
    intro pre cur hok hdn hfresh
    rw [List.map_cons, List.flatten_cons, readLines_append]
    obtain ⟨sname, skvs⟩ := s
    cases sname with
    | none =>
      have hkvs0 : skvs = [] := by
        have := hok ⟨none, skvs⟩ (by simp)
        simpa [sectOK] using this
      subst hkvs0
      have hprint : printSect { name := none, kvs := [] } = [['\n']] := rfl
      rw [hprint]
      have h1 : readLines (mkCfg pre) cur [['\n']] = .ok (mkCfg pre) cur := by
        simp [readLines, processLine_blank]
      rw [h1]
      have hdn' : distinctNames rest = true := by
        simp only [distinctNames, Bool.and_eq_true] at hdn
        exact hdn.2
      obtain ⟨cur2, h2⟩ := ih pre cur (fun t ht => hok t (by simp [ht])) hdn'
        (fun t ht m hm u hu => hfresh t (by simp [ht]) m hm u hu)
      refine ⟨cur2, ?_⟩
      show readLines (mkCfg pre) cur (List.map printSect rest).flatten = _
      rw [h2]
      simp [namedSects]
    | some n =>
      have hsOK := hok ⟨some n, skvs⟩ (by simp)
      simp only [sectOK, Bool.and_eq_true, List.all_eq_true] at hsOK
      obtain ⟨⟨hgn, hgkvs⟩, hgdk⟩ := hsOK
      have hfreshn : ∀ t ∈ pre, t.name ≠ some n :=
        hfresh ⟨some n, skvs⟩ (by simp) n rfl
      rw [readLines_section_block pre cur n skvs hfreshn hgn
        (fun kv hkv => by
          have := hgkvs kv hkv
          simpa [Bool.and_eq_true] using this) hgdk]
      simp only [distinctNames, Bool.and_eq_true, List.all_eq_true] at hdn
      obtain ⟨hdnhead, hdnrest⟩ := hdn
      obtain ⟨cur2, h2⟩ := ih (pre ++ [⟨some n, skvs⟩]) (some (some n))
        (fun t ht => hok t (by simp [ht])) hdnrest
        (fun t ht m hm u hu => by
          rcases List.mem_append.1 hu with hu | hu
          · exact hfresh t (by simp [ht]) m hm u hu
          · have hu' : u = ⟨some n, skvs⟩ := by simpa using hu
            subst hu'
            have hne := hdnhead t ht
            simp only [Bool.not_eq_true', beq_eq_false_iff_ne, ne_eq] at hne
            intro hc
            injection hc with hnm
            exact hne (by rw [hm, hnm]))
      refine ⟨cur2, ?_⟩
      show readLines (mkCfg (pre ++ [{ name := some n, kvs := skvs }])) (some (some n))
          (List.map printSect rest).flatten = _
      rw [h2]
      simp [namedSects, List.append_assoc]

theorem find?_namedSects (l : List ConfigSection) (m : List Char) :
    (namedSects l).find? (fun s => s.name == some m) =
      l.find? (fun s => s.name == some m) := by
  induction l with
  | nil => rfl
  | cons s rest ih =>
    cases hs : s.name with
    | none =>
      have hns : namedSects (s :: rest) = namedSects rest := by
        simp [namedSects, hs]
      rw [hns, List.find?_cons_of_neg _ (by simp [hs])]
      exact ih
    | some nm =>
      have hns : namedSects (s :: rest) = s :: namedSects rest := by
        simp [namedSects, hs]
      rw [hns]
      cases hpos : (s.name == some m) with
      | false =>
        simp only [List.find?_cons, hpos]
        exact ih
      | true =>
        simp only [List.find?_cons, hpos]

theorem lookupVal_reparsed (cfg : Config) (h : wellFormed cfg = true)
    (sec : Option (List Char)) (key : List Char) :
    lookupVal (mkCfg ({ name := none, kvs := [] } :: namedSects cfg.sects)) sec key =
      lookupVal cfg sec key := by
  cases sec with
  | none =>
    have hL : ConfigGetSection (mkCfg ({ name := none, kvs := [] } :: namedSects cfg.sects))
        none = some { name := none, kvs := [] } := by
      unfold ConfigGetSection
      exact List.find?_cons_of_pos _ (by simp)
    cases hR : ConfigGetSection cfg none with
    | none => simp [lookupVal, hL, hR, ConfigGetKeyValue, List.find?]
    | some s =>
      have hsmem : s ∈ cfg.sects := List.mem_of_find?_eq_some hR
      have hsname : s.name = none := by simpa using List.find?_some hR
      obtain ⟨snm, skv⟩ := s
      simp only at hsname
      subst hsname
      have hkvs : skv = [] := by
        simp only [wellFormed, Bool.and_eq_true, List.all_eq_true] at h
        have := h.1 _ hsmem
        simpa [sectOK] using this
      subst hkvs
      simp [lookupVal, hL, hR, ConfigGetKeyValue, List.find?]
  | some m =>
    have hL : ConfigGetSection (mkCfg ({ name := none, kvs := [] } :: namedSects cfg.sects))
        (some m) = ConfigGetSection cfg (some m) := by
      unfold ConfigGetSection
      rw [show (mkCfg ({ name := none, kvs := [] } :: namedSects cfg.sects)).sects =
          { name := none, kvs := [] } :: namedSects cfg.sects from rfl]
      rw [List.find?_cons_of_neg _ (by simp)]
      exact find?_namedSects cfg.sects m
    simp [lookupVal, hL]

/-! ### Claim C1 -/

/-- Claim C1, counterexample: a store whose default section holds k=v (the
value "v" contains neither the comment character nor the separator) prints
as "k=v\n\n"; re-parsing that output into a fresh handle hits the parser's
null current-section dereference, so no store with identical contents is
produced. -/
theorem ConfigPrint_ConfigRead_roundtrip_cex :
    (¬ "v".toList.contains '#' = true) ∧ (¬ "v".toList.contains '=' = true) ∧
    lookupVal (ConfigAddString ConfigNew none "k".toList "v".toList) none "k".toList =
      some "v".toList ∧
    ConfigRead none (ConfigPrint (ConfigAddString ConfigNew none "k".toList "v".toList)) =
      .crash := by
  decide

/-- Claim C1, amended: the round-trip law holds for well-formed stores,
re-parsed into a fresh handle: unnamed sections must be empty (their entries
would hit the null current-section dereference), section names and keys must
be nonempty, not whitespace-edged, and free of the structural characters
(']' for names, '=' and a leading '[' for keys, CR/LF and the fresh
handle's comment character '#' for all), values must be nonempty, not
whitespace-edged and free of CR/LF/'='/'#', keys unique per section and
named sections unique. Then ConfigRead on the printed output returns Ok and
a store with identical (section, key) -> value contents. -/
theorem ConfigPrint_ConfigRead_roundtrip (cfg : Config) (h : wellFormed cfg = true) :
    ∃ cfg2, ConfigRead none (ConfigPrint cfg) = .ret (some cfg2) .CONFIG_RET_OK ∧
      ∀ sec key, lookupVal cfg2 sec key = lookupVal cfg sec key := by
  have h' := h
  simp only [wellFormed, Bool.and_eq_true, List.all_eq_true] at h'
  obtain ⟨hok, hdn⟩ := h'
  obtain ⟨cur2, hrun⟩ := readLines_sections cfg.sects [{ name := none, kvs := [] }] none
    hok hdn
    (fun s hs n hn t ht => by
      have ht' : t = { name := none, kvs := [] } := by simpa using ht
      subst ht'
      simp)
  rw [List.singleton_append] at hrun
  refine ⟨mkCfg ({ name := none, kvs := [] } :: namedSects cfg.sects), ?_, ?_⟩
  · have heq : ConfigRead none (ConfigPrint cfg) =
        match readLines (mkCfg [{ name := none, kvs := [] }]) none
            ((cfg.sects.map printSect).flatten) with
        | .ok c _ => .ret (some c) .CONFIG_RET_OK
        | .err r c => if (none : Option Config).isNone then .ret none r else .ret (some c) r
        | .nullDeref => .crash := rfl
    rw [heq, show ([{ name := none, kvs := [] }] : List ConfigSection) =
      [{ name := none, kvs := [] }] from rfl, hrun]
  · intro sec key
    exact lookupVal_reparsed cfg h sec key

/-- Witness for ConfigPrint_ConfigRead_roundtrip at the two-section store
c1wf. -/
theorem ConfigPrint_ConfigRead_roundtrip_witness :
    wellFormed c1wf = true ∧
    ∃ cfg2, ConfigRead none (ConfigPrint c1wf) = .ret (some cfg2) .CONFIG_RET_OK ∧
      ∀ sec key, lookupVal cfg2 sec key = lookupVal c1wf sec key :=
  ⟨by decide, ConfigPrint_ConfigRead_roundtrip c1wf (by decide)⟩
